import Mathlib

/-!
Verification of the CCL production scheduler (`sop_planner.py`).

The program builds, from a list of orders, a schedule of timed work blocks
(production blocks and, between orders of different color, changeover blocks),
under two ordering policies: submission order, and grouped order (sorted by
color ascending then width descending).  It then reports the total changeover
time of each schedule and the time saved by grouping.

The embedding below models the engine (`calculate_schedule`, lines 48-100 of
the source) and the summary metrics (lines 113-121).  Times are rationals,
measured in minutes; the fixed start timestamp (2026-01-10 08:00) is
abstracted as a rational offset parameter `start0`.  `line_speed` and
`setup_time`, globals read from UI controls in the source, are passed as
parameters.
-/

namespace SopPlanner

/-- One row of the input table (lines 30-36 of the source): order id
(주문번호), customer (고객사), color tag (강종/색상), quantity in tons
(주문량(톤)), width in mm (폭(mm)). -/
structure Order where
  orderId : String
  customer : String
  color : String
  qty : ℚ
  width : ℚ
  deriving DecidableEq

/-- Which of the two `schedule_list.append` sites (line 74 vs line 89)
emitted a block. -/
inductive BlockKind where
  | production
  | changeover
  deriving DecidableEq

/-- One emitted schedule row (the dicts appended at lines 74-80 and 89-95):
작업명, 색상, 시작, 종료, 상세.  `kind` records which append site produced
the row; in the source this is implicit in the label and display color. -/
structure Block where
  kind : BlockKind
  name : String
  displayColor : String
  start : ℚ
  stop : ℚ
  detail : String
  deriving DecidableEq

/-- The literal label of changeover rows, line 75. -/
def changeoverLabel : String := "Changeover (교체)"

/-- The display-color sentinel of changeover rows, line 76. -/
def setupColor : String := "Setup (Loss)"

/-- Production minutes of one order, line 85:
`(row['주문량(톤)'] / line_speed) * 60`. -/
def prodMinutes (line_speed : ℚ) (o : Order) : ℚ :=
  o.qty / line_speed * 60

/-- Line 85 as Python executes it: division by a zero `line_speed` raises
`ZeroDivisionError` instead of producing a value, so the computation is
fallible; for nonzero speed it yields `prodMinutes`.  (Rational division in
this file is total with `x / 0 = 0`, so `prodMinutes` alone would mask this
fault.) -/
def prodMinutesPy (line_speed : ℚ) (o : Order) : Option ℚ :=
  if line_speed = 0 then none else some (prodMinutes line_speed o)

/-- The label of a production row, line 90: `f"{주문번호} ({강종/색상})"`. -/
def prodName (o : Order) : String :=
  o.orderId ++ " (" ++ o.color ++ ")"

/-- The changeover row appended at lines 74-80. -/
def chBlock (setup_time t : ℚ) (lastColor newColor : String) : Block :=
  { kind := BlockKind.changeover
    name := changeoverLabel
    displayColor := setupColor
    start := t
    stop := t + setup_time
    detail := lastColor ++ " -> " ++ newColor }

/-- The production row appended at lines 89-95. -/
def prodBlock (line_speed t : ℚ) (o : Order) : Block :=
  { kind := BlockKind.production
    name := prodName o
    displayColor := o.color
    start := t
    stop := t + prodMinutes line_speed o
    detail := o.customer ++ " / " ++ toString o.qty ++ "톤" }

/-- The changeover test of line 68:
`last_color is not None and row['강종/색상'] != last_color`. -/
def colorChanged (lastColor : Option String) (c : String) : Bool :=
  match lastColor with
  | none => false
  | some c0 => c0 != c

/-- The loop of lines 63-98: walk the working sequence keeping a time cursor
and the color of the last scheduled order, emitting a changeover row when the
color changes and then the production row. -/
def buildBlocks (line_speed setup_time : ℚ) : ℚ → Option String → List Order → List Block
  | _, _, [] => []
  | t, lastColor, o :: rest =>
    if colorChanged lastColor o.color then
      chBlock setup_time t (lastColor.getD "") o.color
        :: prodBlock line_speed (t + setup_time) o
        :: buildBlocks line_speed setup_time
            (t + setup_time + prodMinutes line_speed o) (some o.color) rest
    else
      prodBlock line_speed t o
        :: buildBlocks line_speed setup_time
            (t + prodMinutes line_speed o) (some o.color) rest

/-- The grouped-order sort key, line 52:
`sort_values(by=['강종/색상', '폭(mm)'], ascending=[True, False])` — color
ascending (lexicographic string order), then width descending. -/
def leOrd (a b : Order) : Prop :=
  a.color < b.color ∨ (a.color = b.color ∧ b.width ≤ a.width)

instance leOrdDec : DecidableRel leOrd := fun a b =>
  decidable_of_iff (a.color.toList < b.color.toList ∨ (a.color = b.color ∧ b.width ≤ a.width))
    (or_congr String.lt_iff_toList_lt.symm Iff.rfl)

/-- The grouped-order policy of line 52.  Pandas' multi-column
`sort_values` lexsorts stably; `List.insertionSort` is the stable sort of
the embedding. -/
def sortOrders (df : List Order) : List Order :=
  List.insertionSort leOrd df

/-- Lines 50-55: the working sequence fed to the loop. -/
def appliedOrders (df : List Order) (is_optimized : Bool) : List Order :=
  if is_optimized then sortOrders df else df

/-- The engine, lines 48-100. -/
def calculate_schedule (df : List Order) (is_optimized : Bool)
    (line_speed setup_time start0 : ℚ) : List Block :=
  buildBlocks line_speed setup_time start0 none (appliedOrders df is_optimized)

/-- Line 113/114: the number of schedule rows whose 작업명 is the changeover
label (`df[df['작업명'] == 'Changeover (교체)']['종료'].count()`), assuming
the schedule frame has its columns (i.e. is nonempty). -/
def countLoss (s : List Block) : Nat :=
  s.countP (fun b => b.name == changeoverLabel)

/-- Line 113/114 as executed on the actual DataFrame: the engine returns
`pd.DataFrame(schedule_list)`, and when `schedule_list` is empty this frame
has no columns at all, so the column selection `df['작업명']` raises
`KeyError` instead of yielding a count; on a nonempty schedule it yields
`countLoss`. -/
def countLossDF (s : List Block) : Option Nat :=
  if s.isEmpty then none else some (countLoss s)

/-- Line 113: total as-is changeover time, `count * setup_time`. -/
def loss_asis (df : List Order) (line_speed setup_time start0 : ℚ) : ℚ :=
  (countLoss (calculate_schedule df false line_speed setup_time start0) : ℚ) * setup_time

/-- Line 114: total optimized changeover time. -/
def loss_tobe (df : List Order) (line_speed setup_time start0 : ℚ) : ℚ :=
  (countLoss (calculate_schedule df true line_speed setup_time start0) : ℚ) * setup_time

/-- Line 115: `time_saved = loss_asis - loss_tobe`. -/
def time_saved (df : List Order) (line_speed setup_time start0 : ℚ) : ℚ :=
  loss_asis df line_speed setup_time start0 - loss_tobe df line_speed setup_time start0

/-- Line 121: the efficiency metric
`(time_saved/(loss_asis if loss_asis>0 else 1))*100`. -/
def efficiency_metric (df : List Order) (line_speed setup_time start0 : ℚ) : ℚ :=
  time_saved df line_speed setup_time start0 /
    (if loss_asis df line_speed setup_time start0 > 0
     then loss_asis df line_speed setup_time start0 else 1) * 100

/-- The sample table of lines 30-36 (`default_data`). -/
def default_data : List Order :=
  [ ⟨"ORD-101", "LG전자", "White", 100, 1200⟩
  , ⟨"ORD-102", "삼성전자", "Blue", 50, 1000⟩
  , ⟨"ORD-103", "현대차", "White", 80, 1200⟩
  , ⟨"ORD-104", "기아", "Red", 40, 900⟩
  , ⟨"ORD-105", "포스코E&C", "Blue", 60, 1000⟩
  , ⟨"ORD-106", "LG하우시스", "White", 120, 1200⟩
  , ⟨"ORD-107", "삼성물산", "Red", 30, 900⟩
  , ⟨"ORD-108", "KG모빌리티", "Blue", 50, 1000⟩ ]

/-- A small concrete order of color White, used in concrete runs. -/
def cexOrderA : Order := ⟨"ORD-201", "A사", "White", 20, 1000⟩

/-- A small concrete order of color Blue, used in concrete runs. -/
def cexOrderB : Order := ⟨"ORD-202", "B사", "Blue", 20, 1000⟩

/-- Color projection of an order list. -/
def colorsOf (l : List Order) : List String :=
  l.map Order.color

/-- Number of color transitions in a color sequence, continuing from an
optional previous color: the number of changeover rows the loop emits. -/
def transF : Option String → List String → Nat
  | _, [] => 0
  | lastColor, c :: rest => (if colorChanged lastColor c then 1 else 0) + transF (some c) rest

/-- Number of blocks emitted by the changeover append site. -/
def countChange (s : List Block) : Nat :=
  s.countP (fun b => b.kind == BlockKind.changeover)

/-- Number of blocks emitted by the production append site. -/
def countProd (s : List Block) : Nat :=
  s.countP (fun b => b.kind == BlockKind.production)

/-- Sum of the interval lengths of the changeover blocks of a schedule. -/
def changeoverTotal (s : List Block) : ℚ :=
  ((s.filter (fun b => b.kind == BlockKind.changeover)).map (fun b => b.stop - b.start)).sum

/-- Interval lengths of the production blocks of a schedule, in order. -/
def prodDurations (s : List Block) : List ℚ :=
  (s.filter (fun b => b.kind == BlockKind.production)).map (fun b => b.stop - b.start)

/-- Whether a production row of this order would carry the changeover label
(only possible for an adversarially named order); line 113 counts such rows
as changeovers. -/
def clash (o : Order) : Bool :=
  prodName o == changeoverLabel

/-- Structural well-formedness of a block sequence relative to the color of
the previously scheduled order: the first block is a production block; a
production block emitted with no interposed changeover has the same color as
the previous production block; a changeover block is immediately followed by
a production block of a color different from the previous production block.
Together these state: a changeover appears immediately before a production
block if and only if the preceding production block's color differs, and the
first production block is never preceded by a changeover. -/
def wfAlt : Option String → List Block → Bool
  | _, [] => true
  | none, b :: rest =>
    (b.kind == BlockKind.production) && wfAlt (some b.displayColor) rest
  | some c, b :: rest =>
    match b.kind with
    | BlockKind.production => (b.displayColor == c) && wfAlt (some b.displayColor) rest
    | BlockKind.changeover =>
      match rest with
      | [] => false
      | b2 :: rest2 =>
        (b2.kind == BlockKind.production) && (b2.displayColor != c)
          && wfAlt (some b2.displayColor) rest2

instance : IsTotal Order leOrd := by
  constructor
  intro a b
  rcases lt_trichotomy a.color b.color with h | h | h
  · exact Or.inl (Or.inl h)
  · rcases le_total b.width a.width with hw | hw
    · exact Or.inl (Or.inr ⟨h, hw⟩)
    · exact Or.inr (Or.inr ⟨h.symm, hw⟩)
  · exact Or.inr (Or.inl h)

instance : IsTrans Order leOrd := by
  constructor
  intro a b c hab hbc
  rcases hab with h1 | ⟨e1, w1⟩ <;> rcases hbc with h2 | ⟨e2, w2⟩
  · exact Or.inl (h1.trans h2)
  · exact Or.inl (lt_of_lt_of_eq h1 e2)
  · exact Or.inl (lt_of_eq_of_lt e1 h2)
  · exact Or.inr ⟨e1.trans e2, w2.trans w1⟩

/-- Unfolding of one loop step when the color did not change: only the
production row is appended. -/
theorem buildBlocks_cons_same (ls su t : ℚ) (lc : Option String) (o : Order) (rest : List Order)
    (hc : colorChanged lc o.color = false) :
    buildBlocks ls su t lc (o :: rest) =
      prodBlock ls t o :: buildBlocks ls su (t + prodMinutes ls o) (some o.color) rest := by
  simp [buildBlocks, hc]

/-- Unfolding of one loop step when the color changed: the changeover row and
then the production row are appended. -/
theorem buildBlocks_cons_change (ls su t : ℚ) (lc : Option String) (o : Order) (rest : List Order)
    (hc : colorChanged lc o.color = true) :
    buildBlocks ls su t lc (o :: rest) =
      chBlock su t (lc.getD "") o.color :: prodBlock ls (t + su) o ::
        buildBlocks ls su (t + su + prodMinutes ls o) (some o.color) rest := by
  simp [buildBlocks, hc]

/-- The first block emitted by the loop starts at the current cursor. -/
theorem buildBlocks_head_start (ls su : ℚ) :
    ∀ (l : List Order) (t : ℚ) (lc : Option String) (b : Block),
      (buildBlocks ls su t lc l).head? = some b → b.start = t := by
  intro l t lc b h
  cases l with
  | nil => simp [buildBlocks] at h
  | cons o rest =>
    cases hc : colorChanged lc o.color <;> simp [buildBlocks, hc] at h <;> rw [← h] <;> rfl

/-- Contiguity of the emitted block sequence: each block ends where the next
one starts. -/
theorem buildBlocks_chain (ls su : ℚ) :
    ∀ (l : List Order) (t : ℚ) (lc : Option String),
      List.Chain' (fun a b => a.stop = b.start) (buildBlocks ls su t lc l) := by
  intro l
  induction l with
  | nil => intro t lc; simp [buildBlocks]
  | cons o rest ih =>
    intro t lc
    cases hc : colorChanged lc o.color <;> simp only [buildBlocks, hc]
    · rw [if_neg (by simp)]
      rw [List.chain'_cons']
      refine ⟨?_, ih _ _⟩
      intro b hb
      rw [Option.mem_def] at hb
      have hs := buildBlocks_head_start ls su rest (t + prodMinutes ls o) (some o.color) b hb
      simp [prodBlock, hs]
    · rw [if_pos (by simp)]
      rw [List.chain'_cons', List.chain'_cons']
      refine ⟨?_, ?_, ih _ _⟩
      · intro b hb
        simp only [List.head?_cons, Option.mem_def, Option.some.injEq] at hb
        rw [← hb]
        rfl
      · intro b hb
        rw [Option.mem_def] at hb
        have hs := buildBlocks_head_start ls su rest
          (t + su + prodMinutes ls o) (some o.color) b hb
        simp [prodBlock, hs]

/-- The changeover-label row count of the emitted blocks: one per color
transition, plus one per adversarially labelled production row. -/
theorem countLoss_buildBlocks (ls su : ℚ) :
    ∀ (l : List Order) (t : ℚ) (lc : Option String),
      countLoss (buildBlocks ls su t lc l) = transF lc (colorsOf l) + l.countP clash := by
  intro l
  induction l with
  | nil => intro t lc; simp [buildBlocks, countLoss, transF, colorsOf]
  | cons o rest ih =>
    intro t lc
    cases hc : colorChanged lc o.color <;>
      simp only [buildBlocks, hc, Bool.false_eq_true, if_false, if_true, countLoss,
        List.countP_cons, transF, colorsOf, List.map_cons] <;>
      rw [show (buildBlocks ls su _ (some o.color) rest).countP
          (fun b => b.name == changeoverLabel) = countLoss (buildBlocks ls su _ (some o.color) rest)
        from rfl, ih] <;>
      cases hcl : clash o <;>
      simp only [countLoss, transF, colorsOf, prodBlock, chBlock, List.countP_cons] <;>
      simp [prodName, clash, changeoverLabel] at hcl ⊢ <;>
      simp [hcl] <;>
      omega

/-- The changeover-kind block count of the emitted blocks equals the number
of color transitions. -/
theorem countChange_buildBlocks (ls su : ℚ) :
    ∀ (l : List Order) (t : ℚ) (lc : Option String),
      countChange (buildBlocks ls su t lc l) = transF lc (colorsOf l) := by
  intro l
  induction l with
  | nil => intro t lc; simp [buildBlocks, countChange, transF, colorsOf]
  | cons o rest ih =>
    intro t lc
    cases hc : colorChanged lc o.color
    · rw [buildBlocks_cons_same ls su t lc o rest hc]
      have ih' := ih (t + prodMinutes ls o) (some o.color)
      simp only [countChange, List.countP_cons, prodBlock, transF, colorsOf,
        List.map_cons, hc] at ih' ⊢
      simp [ih']
    · rw [buildBlocks_cons_change ls su t lc o rest hc]
      have ih' := ih (t + su + prodMinutes ls o) (some o.color)
      simp only [countChange, List.countP_cons, prodBlock, chBlock, transF, colorsOf,
        List.map_cons, hc] at ih' ⊢
      simp [ih']
      omega

/-- Exactly one production block is emitted per order. -/
theorem countProd_buildBlocks (ls su : ℚ) :
    ∀ (l : List Order) (t : ℚ) (lc : Option String),
      countProd (buildBlocks ls su t lc l) = l.length := by
  intro l
  induction l with
  | nil => intro t lc; simp [buildBlocks, countProd]
  | cons o rest ih =>
    intro t lc
    cases hc : colorChanged lc o.color <;>
      simp only [buildBlocks, hc, Bool.false_eq_true, if_false, if_true] <;>
      simp only [countProd, List.countP_cons, prodBlock, chBlock] <;>
      rw [show (buildBlocks ls su _ (some o.color) rest).countP
          (fun b => b.kind == BlockKind.production) =
          countProd (buildBlocks ls su _ (some o.color) rest) from rfl, ih] <;>
      simp [List.length_cons]

/-- Every changeover block spans exactly `setup_time` minutes, so their total
length is the transition count times `setup_time`. -/
theorem changeoverTotal_buildBlocks (ls su : ℚ) :
    ∀ (l : List Order) (t : ℚ) (lc : Option String),
      changeoverTotal (buildBlocks ls su t lc l) = (transF lc (colorsOf l) : ℚ) * su := by
  intro l
  induction l with
  | nil => intro t lc; simp [buildBlocks, changeoverTotal, transF, colorsOf]
  | cons o rest ih =>
    intro t lc
    cases hc : colorChanged lc o.color
    · rw [buildBlocks_cons_same ls su t lc o rest hc]
      have h2 : changeoverTotal (prodBlock ls t o ::
            buildBlocks ls su (t + prodMinutes ls o) (some o.color) rest) =
          changeoverTotal (buildBlocks ls su (t + prodMinutes ls o) (some o.color) rest) := by
        simp [changeoverTotal, List.filter_cons, prodBlock]
      rw [h2, ih]
      simp [transF, colorsOf, hc]
    · rw [buildBlocks_cons_change ls su t lc o rest hc]
      have h2 : changeoverTotal (chBlock su t (lc.getD "") o.color :: prodBlock ls (t + su) o ::
            buildBlocks ls su (t + su + prodMinutes ls o) (some o.color) rest) =
          su + changeoverTotal (buildBlocks ls su (t + su + prodMinutes ls o) (some o.color) rest) := by
        simp [changeoverTotal, List.filter_cons, prodBlock, chBlock]
      rw [h2, ih]
      simp only [transF, colorsOf, List.map_cons, hc, if_true]
      push_cast
      ring

/-- The production-block interval lengths are exactly the per-order
production minutes, in working-sequence order. -/
theorem prodDurations_buildBlocks (ls su : ℚ) :
    ∀ (l : List Order) (t : ℚ) (lc : Option String),
      prodDurations (buildBlocks ls su t lc l) = l.map (prodMinutes ls) := by
  intro l
  induction l with
  | nil => intro t lc; simp [buildBlocks, prodDurations]
  | cons o rest ih =>
    intro t lc
    cases hc : colorChanged lc o.color
    · rw [buildBlocks_cons_same ls su t lc o rest hc]
      have h2 : prodDurations (prodBlock ls t o ::
            buildBlocks ls su (t + prodMinutes ls o) (some o.color) rest) =
          (t + prodMinutes ls o - t) ::
            prodDurations (buildBlocks ls su (t + prodMinutes ls o) (some o.color) rest) := by
        simp [prodDurations, List.filter_cons, prodBlock]
      rw [h2, ih]
      simp
    · rw [buildBlocks_cons_change ls su t lc o rest hc]
      have h2 : prodDurations (chBlock su t (lc.getD "") o.color :: prodBlock ls (t + su) o ::
            buildBlocks ls su (t + su + prodMinutes ls o) (some o.color) rest) =
          (t + su + prodMinutes ls o - (t + su)) ::
            prodDurations (buildBlocks ls su (t + su + prodMinutes ls o) (some o.color) rest) := by
        simp [prodDurations, List.filter_cons, prodBlock, chBlock]
      rw [h2, ih]
      simp

/-- The emitted block sequence is well-formed: changeover blocks appear
exactly at color changes, as described at `wfAlt`. -/
theorem wfAlt_buildBlocks (ls su : ℚ) :
    ∀ (l : List Order) (t : ℚ) (lc : Option String),
      wfAlt lc (buildBlocks ls su t lc l) = true := by
  intro l
  induction l with
  | nil => intro t lc; cases lc <;> simp [buildBlocks, wfAlt]
  | cons o rest ih =>
    intro t lc
    cases lc with
    | none =>
      rw [buildBlocks_cons_same ls su t none o rest rfl]
      simp [wfAlt, prodBlock, ih]
    | some c =>
      cases hc : colorChanged (some c) o.color
      · have hcc : c = o.color := by
          have : (c != o.color) = false := hc
          simpa using this
        rw [buildBlocks_cons_same ls su t (some c) o rest hc]
        simp [wfAlt, prodBlock, hcc, ih]
      · have hcc : c ≠ o.color := by
          have : (c != o.color) = true := hc
          simpa using this
        rw [buildBlocks_cons_change ls su t (some c) o rest hc]
        simp [wfAlt, prodBlock, chBlock, ih]
        exact fun h => hcc h.symm

/-- With a positive line speed, a positive setup time and positive
quantities, every emitted block has a strictly positive length. -/
theorem buildBlocks_pos (ls su : ℚ) (hls : 0 < ls) (hsu : 0 < su) :
    ∀ (l : List Order), (∀ o ∈ l, 0 < o.qty) → ∀ (t : ℚ) (lc : Option String),
      ∀ b ∈ buildBlocks ls su t lc l, b.start < b.stop := by
  intro l
  induction l with
  | nil => intro _ t lc b hb; simp [buildBlocks] at hb
  | cons o rest ih =>
    intro hq t lc b hb
    have hq0 : 0 < o.qty := hq o (List.mem_cons_self o rest)
    have hd : 0 < prodMinutes ls o := by
      rw [prodMinutes]
      exact mul_pos (div_pos hq0 hls) (by norm_num)
    have hqr : ∀ o' ∈ rest, 0 < o'.qty := fun o' ho' => hq o' (List.mem_cons_of_mem _ ho')
    cases hc : colorChanged lc o.color
    · rw [buildBlocks_cons_same ls su t lc o rest hc] at hb
      rcases List.mem_cons.mp hb with hb | hb
      · rw [hb]
        show t < t + prodMinutes ls o
        linarith
      · exact ih hqr _ _ b hb
    · rw [buildBlocks_cons_change ls su t lc o rest hc] at hb
      rcases List.mem_cons.mp hb with hb | hb
      · rw [hb]
        show t < t + su
        linarith
      · rcases List.mem_cons.mp hb with hb | hb
        · rw [hb]
          show t + su < t + su + prodMinutes ls o
          linarith
        · exact ih hqr _ _ b hb

/-- Inserting an element not selected by a filter leaves the filter
unchanged. -/
theorem filter_orderedInsert_neg (p : Order → Bool) (a : Order) (ha : p a = false) :
    ∀ s : List Order, (List.orderedInsert leOrd a s).filter p = s.filter p := by
  intro s
  induction s with
  | nil => simp [List.orderedInsert, ha]
  | cons b t ih =>
    by_cases h : leOrd a b
    · simp [List.orderedInsert, h, List.filter_cons, ha]
    · cases hpb : p b <;> simp [List.orderedInsert, h, List.filter_cons, hpb, ih]

/-- Inserting an element selected by a filter, when it sorts no later than
every selected element, puts it at the head of the filter. -/
theorem filter_orderedInsert_pos (p : Order → Bool) (a : Order) (ha : p a = true)
    (key : ∀ y, p y = true → leOrd a y) :
    ∀ s : List Order, (List.orderedInsert leOrd a s).filter p = a :: s.filter p := by
  intro s
  induction s with
  | nil => simp [List.orderedInsert, ha]
  | cons b t ih =>
    by_cases h : leOrd a b
    · simp [List.orderedInsert, h, List.filter_cons, ha]
    · have hb : p b = false := by
        cases hpb : p b
        · rfl
        · exact absurd (key b hpb) h
      simp [List.orderedInsert, h, List.filter_cons, hb, ih]

/-- Stability of the grouped-order policy: the orders sharing any one sort
key (color, width) appear in the sorted sequence exactly as they appear in
the input. -/
theorem sortOrders_filter_key (df : List Order) (c : String) (w : ℚ) :
    (sortOrders df).filter (fun o => decide (o.color = c ∧ o.width = w)) =
      df.filter (fun o => decide (o.color = c ∧ o.width = w)) := by
  induction df with
  | nil => rfl
  | cons a l ih =>
    show (List.orderedInsert leOrd a (List.insertionSort leOrd l)).filter _ = _
    cases hpa : decide (a.color = c ∧ a.width = w)
    · rw [filter_orderedInsert_neg _ a hpa]
      rw [show List.insertionSort leOrd l = sortOrders l from rfl, ih]
      have hpa' : ¬(a.color = c ∧ a.width = w) := of_decide_eq_false hpa
      simp [List.filter_cons, hpa']
    · have hkey : ∀ y : Order, decide (y.color = c ∧ y.width = w) = true → leOrd a y := by
        intro y hy
        have ha' := of_decide_eq_true hpa
        have hy' := of_decide_eq_true hy
        exact Or.inr ⟨ha'.1.trans hy'.1.symm, le_of_eq (hy'.2.trans ha'.2.symm)⟩
      rw [filter_orderedInsert_pos _ a hpa hkey]
      rw [show List.insertionSort leOrd l = sortOrders l from rfl, ih]
      have hpa' := of_decide_eq_true hpa
      simp [List.filter_cons, hpa'.1, hpa'.2]

/-- Any color sequence starting at `c` has at least as many transitions,
plus one, as it has distinct colors. -/
theorem dedup_le_transF :
    ∀ (cs : List String) (c : String), (c :: cs).dedup.length ≤ transF (some c) cs + 1 := by
  intro cs
  induction cs with
  | nil => intro c; simp
  | cons b t ih =>
    intro c
    by_cases hcb : c = b
    · subst hcb
      rw [List.dedup_cons_of_mem (List.mem_cons_self c t)]
      have h1 : transF (some c) (c :: t) = transF (some c) t := by
        simp [transF, colorChanged]
      rw [h1]
      exact ih c
    · have h1 : transF (some c) (b :: t) = 1 + transF (some b) t := by
        simp [transF, colorChanged, hcb]
      by_cases hmem : c ∈ b :: t
      · rw [List.dedup_cons_of_mem hmem, h1]
        have := ih b
        omega
      · rw [List.dedup_cons_of_not_mem hmem, h1]
        have := ih b
        simp only [List.length_cons]
        omega

/-- A sorted color sequence starting at `c` has at most as many transitions,
plus one, as it has distinct colors: sorting makes equal colors contiguous. -/
theorem transF_le_dedup :
    ∀ (cs : List String) (c : String), List.Sorted (fun a b : String => a ≤ b) (c :: cs) →
      transF (some c) cs + 1 ≤ (c :: cs).dedup.length := by
  intro cs
  induction cs with
  | nil => intro c _; simp [transF]
  | cons b t ih =>
    intro c hs
    rw [List.sorted_cons] at hs
    obtain ⟨hcle, hs'⟩ := hs
    by_cases hcb : c = b
    · subst hcb
      rw [List.dedup_cons_of_mem (List.mem_cons_self c t)]
      have h1 : transF (some c) (c :: t) = transF (some c) t := by
        simp [transF, colorChanged]
      rw [h1]
      exact ih c hs'
    · have hmem : c ∉ b :: t := by
        intro hm
        rcases List.mem_cons.mp hm with h | h
        · exact hcb h
        · have h1 : c ≤ b := hcle b (List.mem_cons_self b t)
          have h2 : b ≤ c := (List.sorted_cons.mp hs').1 c h
          exact hcb (le_antisymm h1 h2)
      rw [List.dedup_cons_of_not_mem hmem]
      have h1 : transF (some c) (b :: t) = 1 + transF (some b) t := by
        simp [transF, colorChanged, hcb]
      have := ih b hs'
      simp only [List.length_cons, h1]
      omega

/-- The color projection of the grouped working sequence is sorted in the
lexicographic string order. -/
theorem colors_sorted (df : List Order) :
    List.Sorted (fun a b : String => a ≤ b) (colorsOf (sortOrders df)) := by
  have h := List.sorted_insertionSort leOrd df
  exact h.map Order.color (fun a b hab => by rcases hab with h | ⟨e, _⟩; exacts [h.le, e.le])

/-- Grouping does not change how many distinct colors appear. -/
theorem colors_dedup_length (df : List Order) :
    (colorsOf (sortOrders df)).dedup.length = (colorsOf df).dedup.length := by
  have hp : (colorsOf (sortOrders df)).Perm (colorsOf df) :=
    (List.perm_insertionSort leOrd df).map Order.color
  exact hp.dedup.length_eq

/-- Sorting by color never increases the number of color transitions. -/
theorem transF_sorted_le (df : List Order) :
    transF none (colorsOf (sortOrders df)) ≤ transF none (colorsOf df) := by
  cases df with
  | nil => simp [sortOrders, colorsOf, List.insertionSort, transF]
  | cons o rest =>
    cases hs : sortOrders (o :: rest) with
    | nil =>
      exfalso
      have hlen := List.length_insertionSort leOrd (o :: rest)
      rw [show List.insertionSort leOrd (o :: rest) = sortOrders (o :: rest) from rfl, hs] at hlen
      simp at hlen
    | cons p ps =>
      have hsorted := colors_sorted (o :: rest)
      rw [hs] at hsorted
      have h2 := transF_le_dedup (colorsOf ps) p.color (by simpa [colorsOf] using hsorted)
      have h3 := dedup_le_transF (colorsOf rest) o.color
      have h4 : (p.color :: colorsOf ps).dedup.length = (o.color :: colorsOf rest).dedup.length := by
        have h5 := colors_dedup_length (o :: rest)
        rw [hs] at h5
        simpa [colorsOf] using h5
      have h6 : transF none (colorsOf (p :: ps)) = transF (some p.color) (colorsOf ps) := by
        simp [colorsOf, transF, colorChanged]
      have h7 : transF none (colorsOf (o :: rest)) = transF (some o.color) (colorsOf rest) := by
        simp [colorsOf, transF, colorChanged]
      rw [h6, h7]
      omega

/-- The reported changeover-row count of the grouped schedule never exceeds
that of the submission-order schedule. -/
theorem countLoss_grouped_le (df : List Order) (ls su t0 : ℚ) :
    countLoss (calculate_schedule df true ls su t0) ≤
      countLoss (calculate_schedule df false ls su t0) := by
  have h1 : countLoss (calculate_schedule df true ls su t0) =
      transF none (colorsOf (sortOrders df)) + (sortOrders df).countP clash :=
    countLoss_buildBlocks ls su (sortOrders df) t0 none
  have h2 : countLoss (calculate_schedule df false ls su t0) =
      transF none (colorsOf df) + df.countP clash :=
    countLoss_buildBlocks ls su df t0 none
  have h3 : (sortOrders df).countP clash = df.countP clash :=
    (List.perm_insertionSort leOrd df).countP_eq clash
  have h4 := transF_sorted_le df
  omega

/-- C1: for the default eight-order input with `line_speed = 20` and
`setup_time = 60`, the submission-order schedule has exactly 7 changeover
blocks totalling 420 minutes, the grouped-order schedule has exactly 2
changeover blocks totalling 120 minutes, the reported totals are 420 and
120, the time saved is 300 minutes, and the efficiency metric is
300/420 × 100 = 500/7 ≈ 71.4 %. -/
theorem default_scenario_metrics :
    countChange (calculate_schedule default_data false 20 60 0) = 7
    ∧ changeoverTotal (calculate_schedule default_data false 20 60 0) = 420
    ∧ countChange (calculate_schedule default_data true 20 60 0) = 2
    ∧ changeoverTotal (calculate_schedule default_data true 20 60 0) = 120
    ∧ loss_asis default_data 20 60 0 = 420
    ∧ loss_tobe default_data 20 60 0 = 120
    ∧ time_saved default_data 20 60 0 = 300
    ∧ efficiency_metric default_data 20 60 0 = 500 / 7
    ∧ 714 / 10 ≤ (500 : ℚ) / 7 ∧ (500 : ℚ) / 7 < 7145 / 100 := by
  have hl1 : countLoss (calculate_schedule default_data false 20 60 0) = 7 := by decide
  have hl2 : countLoss (calculate_schedule default_data true 20 60 0) = 2 := by decide
  have hc1 : countChange (calculate_schedule default_data false 20 60 0) = 7 := by decide
  have hc2 : countChange (calculate_schedule default_data true 20 60 0) = 2 := by decide
  have htf1 : transF none (colorsOf (appliedOrders default_data false)) = 7 := by decide
  have htf2 : transF none (colorsOf (appliedOrders default_data true)) = 2 := by decide
  have ht1 : changeoverTotal (calculate_schedule default_data false 20 60 0) =
      (transF none (colorsOf (appliedOrders default_data false)) : ℚ) * 60 :=
    changeoverTotal_buildBlocks 20 60 (appliedOrders default_data false) 0 none
  have ht2 : changeoverTotal (calculate_schedule default_data true 20 60 0) =
      (transF none (colorsOf (appliedOrders default_data true)) : ℚ) * 60 :=
    changeoverTotal_buildBlocks 20 60 (appliedOrders default_data true) 0 none
  have hA : loss_asis default_data 20 60 0 = 420 := by
    unfold loss_asis
    rw [hl1]
    norm_num
  have hB : loss_tobe default_data 20 60 0 = 120 := by
    unfold loss_tobe
    rw [hl2]
    norm_num
  have hT : time_saved default_data 20 60 0 = 300 := by
    unfold time_saved
    rw [hA, hB]
    norm_num
  have hE : efficiency_metric default_data 20 60 0 = 500 / 7 := by
    unfold efficiency_metric
    rw [hT, hA]
    norm_num
  refine ⟨hc1, ?_, hc2, ?_, hA, hB, hT, hE, by norm_num, by norm_num⟩
  · rw [ht1, htf1]
    norm_num
  · rw [ht2, htf2]
    norm_num

/-- C2: in every schedule the builder returns, under both ordering policies,
adjacent blocks are contiguous and non-overlapping: each block's end time
equals the next block's start time. -/
theorem schedule_contiguous (df : List Order) (is_optimized : Bool) (ls su t0 : ℚ) :
    List.Chain' (fun a b => a.stop = b.start) (calculate_schedule df is_optimized ls su t0) :=
  buildBlocks_chain ls su (appliedOrders df is_optimized) t0 none

/-- C3: a changeover block appears immediately before a production block if
and only if the immediately preceding production block's color differs from
this production block's color, and the very first block is a production
block (never preceded by a changeover); `wfAlt` encodes exactly this
alternation property. -/
theorem changeover_iff_color_change (df : List Order) (is_optimized : Bool) (ls su t0 : ℚ) :
    wfAlt none (calculate_schedule df is_optimized ls su t0) = true :=
  wfAlt_buildBlocks ls su (appliedOrders df is_optimized) t0 none

/-- C4: the production-block interval lengths of the schedule are exactly
`(quantity / line_speed) * 60` minutes per order of the policy-ordered
sequence, and this length is strictly positive for positive quantity
(given the positive line speed the UI slider guarantees). -/
theorem production_duration_formula (df : List Order) (is_optimized : Bool) (ls su t0 : ℚ)
    (hls : 0 < ls) :
    prodDurations (calculate_schedule df is_optimized ls su t0) =
      (appliedOrders df is_optimized).map (prodMinutes ls)
    ∧ ∀ o ∈ appliedOrders df is_optimized, 0 < o.qty → 0 < prodMinutes ls o := by
  refine ⟨prodDurations_buildBlocks ls su (appliedOrders df is_optimized) t0 none, ?_⟩
  intro o _ hq
  rw [prodMinutes]
  exact mul_pos (div_pos hq hls) (by norm_num)

/-- Witness for C4 at the default data with `line_speed = 20`. -/
theorem production_duration_formula_witness :
    prodDurations (calculate_schedule default_data false 20 60 0) =
      (appliedOrders default_data false).map (prodMinutes 20) :=
  (production_duration_formula default_data false 20 60 0 (by norm_num)).1

/-- C5: the grouped-order policy sorts by color ascending then width
descending with a stable sort — orders tied on both keys keep their input
order — and applying it twice to the same input yields identical output. -/
theorem grouped_policy_stable (df : List Order) (c : String) (w : ℚ) :
    List.Sorted leOrd (sortOrders df)
    ∧ (sortOrders df).filter (fun o => decide (o.color = c ∧ o.width = w)) =
        df.filter (fun o => decide (o.color = c ∧ o.width = w))
    ∧ sortOrders df = sortOrders df :=
  ⟨List.sorted_insertionSort leOrd df, sortOrders_filter_key df c w, rfl⟩

/-- Counterexample to C6: with `setup_time = -60 < 0` the builder does not
fail and does not withhold output; it emits a complete three-block schedule
including a changeover block.  The source performs no parameter
validation. -/
theorem no_invalid_parameter_failure :
    (calculate_schedule [cexOrderA, cexOrderB] false 20 (-60) 0).length = 3
    ∧ countChange (calculate_schedule [cexOrderA, cexOrderB] false 20 (-60) 0) = 1 :=
  ⟨by decide, by decide⟩

/-- C6 as amended: the builder performs no parameter validation.  For every
nonzero line speed — including every negative one — and every setup time,
including `setup_time < 0`, it emits a complete schedule containing one
production block per input order, with no error and no InvalidParameter
report; at `line_speed = 0` the per-order division of line 85 faults with an
unhandled `ZeroDivisionError` mid-loop (`prodMinutesPy` is `none` there)
rather than reporting InvalidParameter.  The UI slider keeps `line_speed`
in 10..50, so a non-positive line speed cannot arise interactively. -/
theorem schedule_emitted_without_validation (df : List Order) (is_optimized : Bool)
    (ls su t0 : ℚ) (hls : ls ≠ 0) :
    countProd (calculate_schedule df is_optimized ls su t0) = df.length
    ∧ ∀ o : Order, prodMinutesPy 0 o = none := by
  refine ⟨?_, fun o => by simp [prodMinutesPy]⟩
  have h := countProd_buildBlocks ls su (appliedOrders df is_optimized) t0 none
  have h2 : (appliedOrders df is_optimized).length = df.length := by
    cases is_optimized <;> simp [appliedOrders, sortOrders]
  exact h.trans h2

/-- Witness for C6 as amended, at the counterexample's invalid setup time
`-60` and the valid line speed 20. -/
theorem schedule_emitted_without_validation_witness :
    countProd (calculate_schedule [cexOrderA, cexOrderB] false 20 (-60) 0) = 2 :=
  (schedule_emitted_without_validation [cexOrderA, cexOrderB] false 20 (-60) 0 (by norm_num)).1

/-- C7 at the failing input (code bug): on zero orders the builder does
return an empty schedule under both policies, but the metric of line 113
then selects the 작업명 column of a column-less `pd.DataFrame([])` and
faults with `KeyError` (`countLossDF` is `none` on both sides), so the
program reports no changeover totals at all instead of reporting zero
without error. -/
theorem empty_input_metrics_fault (is_optimized : Bool) (ls su t0 : ℚ) :
    calculate_schedule [] is_optimized ls su t0 = []
    ∧ countLossDF (calculate_schedule [] false ls su t0) = none
    ∧ countLossDF (calculate_schedule [] true ls su t0) = none := by
  have h : ∀ b : Bool, calculate_schedule [] b ls su t0 = [] := by
    intro b
    cases b <;> rfl
  exact ⟨h is_optimized, by rw [h false]; rfl, by rw [h true]; rfl⟩

/-- C8: whenever the submission-order changeover total is zero, the
efficiency metric evaluates to zero (the `else 1` guard of line 121
prevents a division-by-zero fault). -/
theorem efficiency_zero_when_no_changeover (df : List Order) (ls su t0 : ℚ)
    (h : loss_asis df ls su t0 = 0) :
    efficiency_metric df ls su t0 = 0 := by
  have htobe : loss_tobe df ls su t0 = 0 := by
    unfold loss_asis at h
    rcases mul_eq_zero.mp h with hcnt | hsu
    · have hc0 : countLoss (calculate_schedule df false ls su t0) = 0 := by exact_mod_cast hcnt
      have hle := countLoss_grouped_le df ls su t0
      have hc1 : countLoss (calculate_schedule df true ls su t0) = 0 := by omega
      unfold loss_tobe
      rw [hc1]
      simp
    · unfold loss_tobe
      rw [hsu]
      simp
  unfold efficiency_metric time_saved
  rw [h, htobe]
  simp

/-- Witness for C8: a single-order input has no changeovers and the metric
reports zero. -/
theorem efficiency_zero_when_no_changeover_witness :
    efficiency_metric [cexOrderA] 20 60 0 = 0 :=
  efficiency_zero_when_no_changeover [cexOrderA] 20 60 0 (by
    unfold loss_asis
    rw [show countLoss (calculate_schedule [cexOrderA] false 20 60 0) = 0 from by decide]
    norm_num)

/-- Counterexample to C9: with `setup_time = 0` (allowed: the parameter is
only required to be non-negative) the changeover block between two
different-colored orders has equal start and end time, so end time is not
strictly greater than start time for every block. -/
theorem zero_setup_block_not_strict :
    ¬ ∀ b ∈ calculate_schedule [cexOrderA, cexOrderB] false 20 0 0, b.start < b.stop := by
  intro h
  have hm : chBlock 0 (0 + prodMinutes 20 cexOrderA) "White" "Blue"
      ∈ calculate_schedule [cexOrderA, cexOrderB] false 20 0 0 := by
    rw [show calculate_schedule [cexOrderA, cexOrderB] false 20 0 0 =
        buildBlocks 20 0 0 none [cexOrderA, cexOrderB] from rfl]
    rw [buildBlocks_cons_same 20 0 0 none cexOrderA [cexOrderB] rfl]
    rw [buildBlocks_cons_change 20 0 (0 + prodMinutes 20 cexOrderA)
        (some cexOrderA.color) cexOrderB [] (by decide)]
    exact List.mem_cons_of_mem _ (List.mem_cons_self _ _)
  have h2 := h _ hm
  have h3 : ¬ (0 + prodMinutes 20 cexOrderA < 0 + prodMinutes 20 cexOrderA + 0) := by simp
  exact h3 h2

/-- C9 as amended: every block's end time is strictly greater than its
start time provided `setup_time` is strictly positive, the line speed is
positive, and all quantities are positive; at `setup_time = 0` or zero
quantity a zero-length block arises instead. -/
theorem block_times_strictly_increasing (df : List Order) (is_optimized : Bool)
    (ls su t0 : ℚ) (hls : 0 < ls) (hsu : 0 < su) (hq : ∀ o ∈ df, 0 < o.qty) :
    ∀ b ∈ calculate_schedule df is_optimized ls su t0, b.start < b.stop := by
  apply buildBlocks_pos ls su hls hsu
  intro o ho
  apply hq
  cases is_optimized
  · simpa [appliedOrders] using ho
  · simpa [appliedOrders, sortOrders] using ho

/-- Witness for C9 as amended, at the first block of the default
schedule. -/
theorem block_times_strictly_increasing_witness :
    ((calculate_schedule default_data false 20 60 0).get ⟨0, by decide⟩).start <
      ((calculate_schedule default_data false 20 60 0).get ⟨0, by decide⟩).stop :=
  block_times_strictly_increasing default_data false 20 60 0 (by norm_num) (by norm_num)
    (by decide) _ (List.get_mem _ 0 _)

/-- C10: for every input and non-negative setup time the grouped schedule's
reported changeover total is at most the submission-order schedule's, so the
reported time saved is non-negative. -/
theorem grouped_loss_le_submission_loss (df : List Order) (ls su t0 : ℚ) (hsu : 0 ≤ su) :
    loss_tobe df ls su t0 ≤ loss_asis df ls su t0 ∧ 0 ≤ time_saved df ls su t0 := by
  have hle := countLoss_grouped_le df ls su t0
  have h1 : loss_tobe df ls su t0 ≤ loss_asis df ls su t0 := by
    unfold loss_asis loss_tobe
    exact mul_le_mul_of_nonneg_right (by exact_mod_cast hle) hsu
  refine ⟨h1, ?_⟩
  unfold time_saved
  linarith

/-- Witness for C10 at the default data. -/
theorem grouped_loss_le_submission_loss_witness :
    loss_tobe default_data 20 60 0 ≤ loss_asis default_data 20 60 0
    ∧ 0 ≤ time_saved default_data 20 60 0 :=
  grouped_loss_le_submission_loss default_data 20 60 0 (by norm_num)

end SopPlanner
